import Mathlib

set_option maxHeartbeats 1000000

/-! Shallow embedding of the FlavourClusterWide scheduler plugin
(pkg/flavourclusterwide/flavourclusterwide.go): the distribution cache
(map from node name to map from flavour value to pod count), the TTL-guarded
rebuild `updateCacheIfNeeded`, the incremental update `PostBind`, and `Score`.
Go maps become association lists, wall-clock time becomes an `Int` of seconds
(the TTL constant 1 minute becomes 60), and the two inventory queries become
`Except`-valued inputs. -/

/-- A row of the cache: flavour value to pod count (the Go inner map). -/
abbrev Row := List (String × Nat)

/-- The cache: node name to row (Go `map[string]map[string]int`). -/
abbrev Cache := List (String × Row)

/-- Association-list lookup, the Go map read `m[k]` (first binding wins). -/
def alistLookup {α : Type} : List (String × α) → String → Option α
  | [], _ => none
  | (k, v) :: rest, key => if k = key then some v else alistLookup rest key

/-- Association-list update, the Go map write `m[k] = v`. -/
def alistSet {α : Type} : List (String × α) → String → α → List (String × α)
  | [], key, val => [(key, val)]
  | (k, v) :: rest, key, val =>
      if k = key then (key, val) :: rest else (k, v) :: alistSet rest key val

/-- Result code of `framework.NewStatus`; the plugin only produces Success. -/
inductive StatusCode where
  | success
  | error
deriving DecidableEq

/-- `framework.Status`: a code plus a message. -/
structure Status where
  code : StatusCode
  message : String
deriving DecidableEq

/-- The fields of a `v1.Pod` the plugin reads: `Spec.NodeName` and `Labels`. -/
structure PodInfo where
  nodeName : String
  labels : List (String × String)
deriving DecidableEq

/-- Mutable state of the FlavourClusterWide plugin: `cache`, `lastUpdated`,
`labelName`. -/
structure PluginState where
  cache : Cache
  lastUpdated : Int
  labelName : String
deriving DecidableEq

/-- `pod.Labels[f.labelName]`: a Go map read, defaulting to the empty string. -/
def podFlavour (labelName : String) (pod : PodInfo) : String :=
  (alistLookup pod.labels labelName).getD ""

/-- `f.cache[nodeName][flavour]`: a double Go map read, defaulting to 0. -/
def countOf (c : Cache) (nodeName flavour : String) : Nat :=
  (alistLookup ((alistLookup c nodeName).getD []) flavour).getD 0

/-- First pass of `updateCacheIfNeeded`: collect the flavour value of one
scheduled pod into the set of discovered flavours. -/
def discoverStep (labelName : String) (acc : List String) (p : PodInfo) : List String :=
  if p.nodeName = "" then acc
  else if podFlavour labelName p = "" then acc
  else if podFlavour labelName p ∈ acc then acc
  else acc ++ [podFlavour labelName p]

/-- All flavour values discovered from the pod listing. -/
def discoverFlavours (labelName : String) (pods : List PodInfo) : List String :=
  pods.foldl (discoverStep labelName) []

/-- A row holding a zero entry for every discovered flavour. -/
def zeroRow (flavours : List String) : Row :=
  flavours.map (fun fl => (fl, 0))

/-- Initialize the fresh cache: a zero row for every listed node. -/
def initCache (nodes : List String) (flavours : List String) : Cache :=
  nodes.foldl (fun c n => alistSet c n (zeroRow flavours)) []

/-- `newCache[node] = make(map[string]int)` when the row is absent. -/
def ensureRow (c : Cache) (n : String) : Cache :=
  if (alistLookup c n).isSome then c else alistSet c n []

/-- `newCache[node][flavour] = 0` when the entry is absent. -/
def ensureEntry (c : Cache) (n fl : String) : Cache :=
  if (alistLookup ((alistLookup c n).getD []) fl).isSome then c
  else alistSet c n (alistSet ((alistLookup c n).getD []) fl 0)

/-- `cache[node][flavour]++`. -/
def bumpFlavour (c : Cache) (n fl : String) : Cache :=
  alistSet c n
    (alistSet ((alistLookup c n).getD []) fl
      ((alistLookup ((alistLookup c n).getD []) fl).getD 0 + 1))

/-- Second pass of `updateCacheIfNeeded`: count one pod into the fresh cache. -/
def countStep (labelName : String) (c : Cache) (p : PodInfo) : Cache :=
  if p.nodeName = "" then c
  else if podFlavour labelName p = "" then c
  else
    bumpFlavour (ensureEntry (ensureRow c p.nodeName) p.nodeName (podFlavour labelName p))
      p.nodeName (podFlavour labelName p)

/-- The cache `updateCacheIfNeeded` rebuilds from the listed nodes and pods. -/
def rebuildCache (labelName : String) (nodes : List String) (pods : List PodInfo) : Cache :=
  pods.foldl (countStep labelName) (initCache nodes (discoverFlavours labelName pods))

/-- `updateCacheIfNeeded`: the TTL check, the two inventory queries (whose
results are passed in as `Except` values), and the rebuild-and-swap. On a
query error the method returns with state unchanged. -/
def updateCacheIfNeeded (s : PluginState) (now : Int)
    (nodesRes : Except Unit (List String)) (podsRes : Except Unit (List PodInfo)) :
    PluginState :=
  if now - s.lastUpdated < 60 then s
  else
    match nodesRes with
    | .error _ => s
    | .ok nodes =>
      match podsRes with
      | .error _ => s
      | .ok pods =>
        { s with cache := rebuildCache s.labelName nodes pods, lastUpdated := now }

/-- The PostBind back-fill loop: add a zero entry for `fl` to every row that
lacks one. -/
def backfill (c : Cache) (fl : String) : Cache :=
  c.map (fun e => if (alistLookup e.2 fl).isSome then e else (e.1, alistSet e.2 fl 0))

/-- PostBind's new-flavour block: set `cache[n][fl] = 0` and back-fill `fl`
into every other row, when `fl` is absent from `n`'s row. -/
def ensureFlavour (c : Cache) (n fl : String) : Cache :=
  if (alistLookup ((alistLookup c n).getD []) fl).isSome then c
  else backfill (alistSet c n (alistSet ((alistLookup c n).getD []) fl 0)) fl

/-- `PostBind`: record one committed placement of `pod` on `nodeName`. -/
def PostBind (s : PluginState) (pod : PodInfo) (nodeName : String) : PluginState :=
  if podFlavour s.labelName pod = "" then s
  else
    { s with
      cache :=
        bumpFlavour
          (ensureFlavour (ensureRow s.cache nodeName) nodeName (podFlavour s.labelName pod))
          nodeName (podFlavour s.labelName pod) }

/-- The `minPods` loop of `Score`, with -1 as the "no entry seen" sentinel;
rows with no entry for `fl` are skipped. -/
def minPodsLoop (fl : String) : Cache → Int → Int
  | [], m => m
  | e :: rest, m =>
    match alistLookup e.2 fl with
    | some count =>
        minPodsLoop fl rest (if m = -1 ∨ (count : Int) < m then (count : Int) else m)
    | none => minPodsLoop fl rest m

/-- The cluster-wide minimum exactly as `Score` computes it. -/
def minPods (c : Cache) (fl : String) : Int :=
  minPodsLoop fl c (-1)

/-- `framework.NewStatus(framework.Success, msg)`. -/
def successStatus (msg : String) : Status := ⟨.success, msg⟩

/-- Body of `Score` after the refresh: the candidate's (map-defaulted) count
compared against `minPods`. -/
def scoreOn (c : Cache) (fl nodeName : String) : Int :=
  if (countOf c nodeName fl : Int) = minPods c fl then 100 else 0

/-- `Score`: label check and short-circuit, refresh-if-stale, then the binary
comparison with the cluster-wide minimum. Returns the (score, status) pair and
the plugin state after the call. -/
def Score (s : PluginState) (pod : PodInfo) (nodeName : String) (now : Int)
    (nodesRes : Except Unit (List String)) (podsRes : Except Unit (List PodInfo)) :
    (Int × Status) × PluginState :=
  if podFlavour s.labelName pod = "" then
    ((0, successStatus
        ("Pod does not have the \x27" ++ s.labelName ++ "\x27 label, scoring is not applied")), s)
  else
    let s' := updateCacheIfNeeded s now nodesRes podsRes
    ((scoreOn s'.cache (podFlavour s.labelName pod) nodeName, successStatus ""), s')

/-! Spec-side definitions used to state the claims. -/

/-- All flavour keys appearing in any row of the cache. -/
def flavoursOf : Cache → List String
  | [] => []
  | e :: rest => e.2.map Prod.fst ++ flavoursOf rest

/-- Uniformity: every row has an entry for every flavour present anywhere in
the cache. -/
def uniform (c : Cache) : Bool :=
  (flavoursOf c).all (fun fl => c.all (fun e => (alistLookup e.2 fl).isSome))

/-- Spec-side minimum: the minimum count over the rows that do have an entry
for `fl`; `none` when no row has one. -/
def specMin (c : Cache) (fl : String) : Option Nat :=
  match c with
  | [] => none
  | e :: rest =>
    match alistLookup e.2 fl, specMin rest fl with
    | none, m => m
    | some v, none => some v
    | some v, some m => some (min v m)

/-- Spec-side minimum in the claim C2 reading: the minimum over all rows of
the row's count for `fl` with absence counted as 0; `none` on the empty cache. -/
def specMinZero (c : Cache) (fl : String) : Option Nat :=
  match c with
  | [] => none
  | e :: rest =>
    match specMinZero rest fl with
    | none => some ((alistLookup e.2 fl).getD 0)
    | some m => some (min ((alistLookup e.2 fl).getD 0) m)

/-- The initial plugin state `New` constructs: empty cache, zero time. -/
def initState (label : String) : PluginState := ⟨[], 0, label⟩

/-- States reachable from the initial state by rebuilds with successful
inventory queries and by PostBind calls. -/
inductive Reachable : PluginState → Prop where
  | init (label : String) : Reachable (initState label)
  | refresh {s : PluginState} (now : Int) (nodes : List String) (pods : List PodInfo) :
      Reachable s → Reachable (updateCacheIfNeeded s now (.ok nodes) (.ok pods))
  | record {s : PluginState} (pod : PodInfo) (nodeName : String) :
      Reachable s → Reachable (PostBind s pod nodeName)

/-- Every counted pod of a rebuild lands on a node of the node listing. -/
def podsOnListedNodes (labelName : String) (nodes : List String) (pods : List PodInfo) : Prop :=
  ∀ p ∈ pods, p.nodeName = "" ∨ podFlavour labelName p = "" ∨ p.nodeName ∈ nodes

/-- A PostBind call that targets an already-present row, or happens while the
recorded flavour is the only flavour in the table. -/
def recordSafe (s : PluginState) (pod : PodInfo) (nodeName : String) : Prop :=
  (alistLookup s.cache nodeName).isSome = true ∨
    ∀ fl ∈ flavoursOf s.cache, fl = podFlavour s.labelName pod

/-- Reachability restricted to the steps that preserve uniformity. -/
inductive GoodReachable : PluginState → Prop where
  | init (label : String) : GoodReachable (initState label)
  | refresh {s : PluginState} (now : Int) (nodes : List String) (pods : List PodInfo) :
      podsOnListedNodes s.labelName nodes pods →
      GoodReachable s → GoodReachable (updateCacheIfNeeded s now (.ok nodes) (.ok pods))
  | record {s : PluginState} (pod : PodInfo) (nodeName : String) :
      recordSafe s pod nodeName →
      GoodReachable s → GoodReachable (PostBind s pod nodeName)

/-- A row has an entry for every flavour of `flavs` and for no other key. -/
def RowKeys (flavs : List String) (row : Row) : Prop :=
  (∀ fl ∈ flavs, (alistLookup row fl).isSome = true) ∧ ∀ p ∈ row, p.1 ∈ flavs

/-- Every row of the cache is bounded by the flavour set `flavs`. -/
def CacheBound (flavs : List String) (c : Cache) : Prop :=
  ∀ e ∈ c, RowKeys flavs e.2

/-- Every listed node has a row in the cache. -/
def NodesPresent (nodes : List String) (c : Cache) : Prop :=
  ∀ n ∈ nodes, (alistLookup c n).isSome = true

/-! Concrete fixtures for witnesses and counterexamples. -/

def podGold : PodInfo := ⟨"", [("flavour", "gold")]⟩
def podSilver : PodInfo := ⟨"", [("flavour", "silver")]⟩
def podPlain : PodInfo := ⟨"", []⟩
def tblABC : Cache := [("A", [("gold", 2)]), ("B", [("gold", 5)]), ("C", [("gold", 2)])]
def stateABC : PluginState := ⟨tblABC, 0, "flavour"⟩
def stateA5 : PluginState := ⟨[("A", [("gold", 5)])], 0, "flavour"⟩
def stateAgold0 : PluginState := ⟨[("A", [("gold", 0)])], 0, "flavour"⟩

/-! Basic lemmas about association lists. -/

theorem alistLookup_alistSet {α : Type} (l : List (String × α)) (k k' : String) (v : α) :
    alistLookup (alistSet l k v) k' = if k' = k then some v else alistLookup l k' := by
  induction l with
  | nil =>
    by_cases h : k' = k
    · simp [alistSet, alistLookup, h]
    · simp [alistSet, alistLookup, h, Ne.symm h]
  | cons e rest ih =>
    obtain ⟨k₀, v₀⟩ := e
    by_cases h₀ : k₀ = k
    · subst h₀
      by_cases h : k' = k₀
      · simp [alistSet, alistLookup, h]
      · simp [alistSet, alistLookup, h, Ne.symm h]
    · by_cases h : k₀ = k'
      · subst h
        simp [alistSet, alistLookup, h₀, Ne.symm h₀]
      · simp [alistSet, alistLookup, h₀, h, ih]

theorem alistLookup_alistSet_self {α : Type} (l : List (String × α)) (k : String) (v : α) :
    alistLookup (alistSet l k v) k = some v := by
  simp [alistLookup_alistSet]

theorem alistLookup_alistSet_ne {α : Type} (l : List (String × α)) {k k' : String} (v : α)
    (h : k' ≠ k) : alistLookup (alistSet l k v) k' = alistLookup l k' := by
  simp [alistLookup_alistSet, h]

theorem mem_alistSet {α : Type} {l : List (String × α)} {k : String} {v : α}
    {p : String × α} (h : p ∈ alistSet l k v) : p = (k, v) ∨ p ∈ l := by
  induction l with
  | nil =>
    simp only [alistSet, List.mem_singleton] at h
    exact Or.inl h
  | cons e rest ih =>
    obtain ⟨k₀, v₀⟩ := e
    simp only [alistSet] at h
    by_cases h₀ : k₀ = k
    · rw [if_pos h₀] at h
      rcases List.mem_cons.mp h with h' | h'
      · exact Or.inl h'
      · exact Or.inr (List.mem_cons_of_mem _ h')
    · rw [if_neg h₀] at h
      rcases List.mem_cons.mp h with h' | h'
      · exact Or.inr (by rw [h']; exact List.mem_cons_self _ _)
      · rcases ih h' with h'' | h''
        · exact Or.inl h''
        · exact Or.inr (List.mem_cons_of_mem _ h'')

theorem alistLookup_mem {α : Type} {l : List (String × α)} {k : String} {v : α}
    (h : alistLookup l k = some v) : (k, v) ∈ l := by
  induction l with
  | nil => simp [alistLookup] at h
  | cons e rest ih =>
    obtain ⟨k₀, v₀⟩ := e
    by_cases h₀ : k₀ = k
    · subst h₀
      simp [alistLookup] at h
      subst h
      exact List.mem_cons_self _ _
    · simp only [alistLookup, if_neg h₀] at h
      exact List.mem_cons_of_mem _ (ih h)

theorem alistLookup_isSome_alistSet {α : Type} (l : List (String × α)) (k k' : String) (v : α)
    (h : (alistLookup l k').isSome = true) :
    (alistLookup (alistSet l k v) k').isSome = true := by
  rw [alistLookup_alistSet]
  by_cases hk : k' = k <;> simp [hk, h]

/-! Frame properties of updateCacheIfNeeded and the unfolding of Score. -/

theorem updateCacheIfNeeded_ttl (s : PluginState) (now : Int)
    (nodesRes : Except Unit (List String)) (podsRes : Except Unit (List PodInfo))
    (h : now - s.lastUpdated < 60) :
    updateCacheIfNeeded s now nodesRes podsRes = s := by
  simp [updateCacheIfNeeded, h]

theorem updateCacheIfNeeded_fail (s : PluginState) (now : Int)
    (nodesRes : Except Unit (List String)) (podsRes : Except Unit (List PodInfo))
    (h : nodesRes = .error () ∨ podsRes = .error ()) :
    updateCacheIfNeeded s now nodesRes podsRes = s := by
  rcases h with h | h
  · subst h
    simp only [updateCacheIfNeeded]
    split <;> rfl
  · subst h
    simp only [updateCacheIfNeeded]
    split
    · rfl
    · cases nodesRes <;> rfl

theorem Score_eq (s : PluginState) (pod : PodInfo) (nodeName : String) (now : Int)
    (nodesRes : Except Unit (List String)) (podsRes : Except Unit (List PodInfo))
    (h : podFlavour s.labelName pod ≠ "") :
    Score s pod nodeName now nodesRes podsRes =
      ((scoreOn (updateCacheIfNeeded s now nodesRes podsRes).cache
          (podFlavour s.labelName pod) nodeName, successStatus ""),
        updateCacheIfNeeded s now nodesRes podsRes) := by
  simp [Score, h]

/-! Refinement of the minPods loop by the spec-side minimum. -/

theorem minPodsLoop_nat (fl : String) (c : Cache) (m : Nat) :
    minPodsLoop fl c (m : Int) =
      (match specMin c fl with
       | none => (m : Int)
       | some v => ((min m v : Nat) : Int)) := by
  induction c generalizing m with
  | nil => simp [minPodsLoop, specMin]
  | cons e rest ih =>
    cases hrow : alistLookup e.2 fl with
    | none =>
      simp only [minPodsLoop, specMin, hrow]
      exact ih m
    | some v =>
      simp only [minPodsLoop, specMin, hrow]
      have h1 : (if (m : Int) = -1 ∨ (v : Int) < (m : Int) then (v : Int) else (m : Int))
          = ((min m v : Nat) : Int) := by
        have hne : ¬((m : Int) = -1) := by omega
        by_cases hlt : (v : Int) < (m : Int)
        · rw [if_pos (Or.inr hlt)]
          have hvm : v < m := by exact_mod_cast hlt
          simp [Nat.min_def, Nat.not_le.mpr hvm]
        · rw [if_neg (by tauto)]
          have hmv : m ≤ v := by
            have : ¬(v < m) := fun hc => hlt (by exact_mod_cast hc)
            omega
          simp [Nat.min_def, hmv]
      rw [h1, ih (min m v)]
      cases hs : specMin rest fl with
      | none => simp
      | some w => simp [Nat.min_assoc]

theorem minPods_eq_specMin (c : Cache) (fl : String) :
    minPods c fl =
      (match specMin c fl with
       | none => (-1 : Int)
       | some v => (v : Int)) := by
  rw [minPods]
  induction c with
  | nil => simp [minPodsLoop, specMin]
  | cons e rest ih =>
    cases hrow : alistLookup e.2 fl with
    | none =>
      simp only [minPodsLoop, specMin, hrow]
      exact ih
    | some v =>
      simp only [minPodsLoop, specMin, hrow, eq_self_iff_true, true_or, if_true]
      rw [minPodsLoop_nat]
      cases hs : specMin rest fl with
      | none => simp
      | some w => simp

theorem minPodsLoop_skip (fl : String) (c : Cache) (acc : Int)
    (h : ∀ e ∈ c, alistLookup e.2 fl = none) : minPodsLoop fl c acc = acc := by
  induction c generalizing acc with
  | nil => rfl
  | cons e rest ih =>
    have he : alistLookup e.2 fl = none := h e (List.mem_cons_self _ _)
    simp only [minPodsLoop, he]
    exact ih acc (fun e' he' => h e' (List.mem_cons_of_mem _ he'))

theorem scoreOn_eq_spec (c : Cache) (fl nodeName : String) :
    scoreOn c fl nodeName =
      (if specMin c fl = some (countOf c nodeName fl) then 100 else 0) := by
  rw [scoreOn, minPods_eq_specMin]
  cases hs : specMin c fl with
  | none =>
    have h1 : ¬((countOf c nodeName fl : Int) = (-1 : Int)) := by omega
    simp [h1]
  | some v =>
    by_cases h : countOf c nodeName fl = v
    · subst h
      simp
    · have h1 : ¬((countOf c nodeName fl : Int) = (v : Int)) := by exact_mod_cast h
      have h2 : ¬(some v = some (countOf c nodeName fl)) := by
        intro hh
        injection hh with hh
        exact h hh.symm
      simp [h1, h2]

/-- C2 counterexample: on the cache {A: {}} (one node row with no entries),
Score's minimum computation yields the sentinel -1, while the claim's
"absence counts as zero" minimum yields 0; Score consequently gives node A
score 0 where the claimed rule would give 100 (count 0 = minimum 0). -/
theorem c2_absent_zero_counterexample :
    minPods [("A", ([] : Row))] "gold" = -1 ∧
      specMinZero [("A", ([] : Row))] "gold" = some 0 ∧
      countOf [("A", ([] : Row))] "A" "gold" = 0 ∧
      scoreOn [("A", ([] : Row))] "gold" "A" = 0 := by
  refine ⟨by decide, by decide, by decide, by decide⟩

/-- C2 (amended): in Score's cluster-wide minimum computation a node row with
no entry for the flavour is skipped, not counted as zero: the minimum equals
the minimum over the rows that do have an entry for the flavour, and is the
sentinel -1 when no row has one. -/
theorem c2_min_skips_absent (c : Cache) (fl : String) :
    minPods c fl =
      (match specMin c fl with
       | none => (-1 : Int)
       | some v => (v : Int)) :=
  minPods_eq_specMin c fl

/-- C3 counterexample: starting from {A:{gold:0}}, after PostBind(gold,A)
three times and PostBind(silver,B) once, row B has NO gold entry — the claim
says the new row B gets a zero entry for every flavour already in the table
(B:{gold:0, silver:1}), but the code only back-fills the newly recorded
flavour into existing rows. -/
theorem c3_postbind_counterexample :
    alistLookup
        ((alistLookup
            (PostBind (PostBind (PostBind (PostBind stateAgold0 podGold "A") podGold "A")
                podGold "A") podSilver "B").cache
            "B").getD [])
        "gold" = none := by
  decide

/-- C3 (amended): starting from {A:{gold:0}}, three PostBind(gold,A) calls
yield A:{gold:3}; a following PostBind(silver,B) back-fills A:{silver:0} and
creates the row B:{silver:1}: the new row gets an entry only for the recorded
flavour, not a zero entry for the pre-existing flavour gold. -/
theorem c3_postbind_sequence :
    (PostBind (PostBind (PostBind stateAgold0 podGold "A") podGold "A") podGold "A").cache
        = [("A", [("gold", 3)])] ∧
      (PostBind (PostBind (PostBind (PostBind stateAgold0 podGold "A") podGold "A") podGold "A")
          podSilver "B").cache
        = [("A", [("gold", 3), ("silver", 0)]), ("B", [("silver", 1)])] := by
  refine ⟨by decide, by decide⟩

/-- C5 counterexample: two Score calls 2 seconds apart (at times 59 and 61,
both relative to a last rebuild at time 0), with no intervening PostBind,
observe different cache tables and different scores, because the second call
crosses the 60-second TTL boundary and rebuilds. -/
theorem c5_ttl_straddle_counterexample :
    (Score stateA5 podGold "A" 59 (.ok ["A"]) (.ok [])).1.1 = 100 ∧
      (Score (Score stateA5 podGold "A" 59 (.ok ["A"]) (.ok [])).2 podGold "A" 61
          (.ok ["A"]) (.ok [])).1.1 = 0 ∧
      (Score (Score stateA5 podGold "A" 59 (.ok ["A"]) (.ok [])).2 podGold "A" 61
          (.ok ["A"]) (.ok [])).2.cache ≠
        (Score stateA5 podGold "A" 59 (.ok ["A"]) (.ok [])).2.cache ∧
      (61 : Int) - 59 < 60 := by
  refine ⟨by decide, by decide, by decide, by decide⟩

/-- C5 (amended): whenever less than 1 minute has elapsed since lastUpdated,
updateCacheIfNeeded returns with the cache and the marker unchanged; and a
second Score call made within 1 minute of the freshness marker left by a
first Score call (in particular within 1 minute of a first call that
performed the rebuild) observes the identical cache table, with no second
rebuild. Two calls merely within 1 minute of each other can straddle the TTL
boundary and observe different tables. -/
theorem c5_ttl_frame :
    (∀ (s : PluginState) (now : Int) (nr : Except Unit (List String))
        (pr : Except Unit (List PodInfo)),
        now - s.lastUpdated < 60 → updateCacheIfNeeded s now nr pr = s) ∧
      (∀ (s : PluginState) (pod pod' : PodInfo) (n₁ n₂ : String) (now₁ now₂ : Int)
          (nr₁ nr₂ : Except Unit (List String)) (pr₁ pr₂ : Except Unit (List PodInfo)),
          now₂ - ((Score s pod n₁ now₁ nr₁ pr₁).2).lastUpdated < 60 →
          (Score ((Score s pod n₁ now₁ nr₁ pr₁).2) pod' n₂ now₂ nr₂ pr₂).2 =
            (Score s pod n₁ now₁ nr₁ pr₁).2) := by
  constructor
  · exact updateCacheIfNeeded_ttl
  · intro s pod pod' n₁ n₂ now₁ now₂ nr₁ nr₂ pr₁ pr₂ h
    by_cases hfl : podFlavour ((Score s pod n₁ now₁ nr₁ pr₁).2).labelName pod' = ""
    · have hkeep : ∀ (t : PluginState), podFlavour t.labelName pod' = "" →
          (Score t pod' n₂ now₂ nr₂ pr₂).2 = t := by
        intro t ht
        simp [Score, ht]
      exact hkeep _ hfl
    · rw [Score_eq _ _ _ _ _ _ hfl]
      simp [updateCacheIfNeeded_ttl _ _ _ _ h]

/-- C5 witness: the frame property applied at a concrete state and at two
concrete calls 30 seconds apart, both within the TTL of the marker. -/
theorem c5_ttl_frame_witness :
    ((0 : Int) - stateA5.lastUpdated < 60) ∧
      ((30 : Int) - ((Score stateA5 podGold "A" 0 (.ok []) (.ok [])).2).lastUpdated < 60) ∧
      updateCacheIfNeeded stateA5 0 (.ok []) (.ok []) = stateA5 ∧
      (Score ((Score stateA5 podGold "A" 0 (.ok []) (.ok [])).2) podGold "A" 30
          (.ok []) (.ok [])).2 =
        (Score stateA5 podGold "A" 0 (.ok []) (.ok [])).2 :=
  ⟨by decide, by decide, c5_ttl_frame.1 stateA5 0 _ _ (by decide),
    c5_ttl_frame.2 stateA5 podGold podGold "A" "A" 0 30 _ _ _ _ (by decide)⟩

/-- C6: if either inventory query fails during a due refresh,
updateCacheIfNeeded returns with the previous cache and marker unchanged, and
a Score call with those failing queries still returns the score computed from
the pre-failure table, with a Success status. -/
theorem c6_refresh_failure_atomic (s : PluginState) (pod : PodInfo) (nodeName : String)
    (now : Int) (nr : Except Unit (List String)) (pr : Except Unit (List PodInfo))
    (_hdue : 60 ≤ now - s.lastUpdated) (hfail : nr = .error () ∨ pr = .error ()) :
    updateCacheIfNeeded s now nr pr = s ∧
      (podFlavour s.labelName pod ≠ "" →
        Score s pod nodeName now nr pr =
          ((scoreOn s.cache (podFlavour s.labelName pod) nodeName, successStatus ""), s)) := by
  have hup := updateCacheIfNeeded_fail s now nr pr hfail
  refine ⟨hup, fun hfl => ?_⟩
  rw [Score_eq _ _ _ _ _ _ hfl, hup]

/-- C6 witness: a failing node query at a due time (120s after the marker)
leaves the concrete state {A:{gold:5}} untouched and Score still scores on it. -/
theorem c6_refresh_failure_atomic_witness :
    updateCacheIfNeeded stateA5 120 (.error ()) (.ok []) = stateA5 ∧
      (podFlavour stateA5.labelName podGold ≠ "" →
        Score stateA5 podGold "A" 120 (.error ()) (.ok []) =
          ((scoreOn stateA5.cache (podFlavour stateA5.labelName podGold) "A",
            successStatus ""), stateA5)) :=
  c6_refresh_failure_atomic stateA5 podGold "A" 120 _ _ (by decide) (Or.inl rfl)

/-- C7: when the pod's configured category label is absent or empty, Score
returns 0 with a Success status whose message says scoring is not applied,
before any cache refresh, leaving the plugin state unchanged. -/
theorem c7_empty_flavour_short_circuit (s : PluginState) (pod : PodInfo) (nodeName : String)
    (now : Int) (nr : Except Unit (List String)) (pr : Except Unit (List PodInfo))
    (h : podFlavour s.labelName pod = "") :
    Score s pod nodeName now nr pr =
      ((0, successStatus
          ("Pod does not have the \x27" ++ s.labelName ++ "\x27 label, scoring is not applied")),
        s) := by
  simp [Score, h]

/-- C7 witness: a pod with no labels on the concrete state {A:{gold:5}}. -/
theorem c7_empty_flavour_short_circuit_witness :
    podFlavour stateA5.labelName podPlain = "" ∧
      Score stateA5 podPlain "A" 0 (.ok []) (.ok []) =
        ((0, successStatus
            ("Pod does not have the \x27" ++ stateA5.labelName ++
              "\x27 label, scoring is not applied")),
          stateA5) :=
  ⟨by decide, c7_empty_flavour_short_circuit stateA5 podPlain "A" 0 _ _ (by decide)⟩

/-- C4: for every plugin state, labelled pod and candidate node, Score
returns 100 when the candidate's (map-defaulted) count for the pod's flavour
equals the cluster-wide minimum over the rows carrying that flavour in the
scored (refreshed-if-due) cache, and 0 otherwise, always with a Success
status; in particular on {A:{gold:2}, B:{gold:5}, C:{gold:2}} the gold scores
of A, B, C are 100, 0, 100. -/
theorem c4_binary_scoring (s : PluginState) (pod : PodInfo) (nodeName : String) (now : Int)
    (nr : Except Unit (List String)) (pr : Except Unit (List PodInfo))
    (h : podFlavour s.labelName pod ≠ "") :
    (Score s pod nodeName now nr pr =
        ((if specMin (updateCacheIfNeeded s now nr pr).cache (podFlavour s.labelName pod)
              = some (countOf (updateCacheIfNeeded s now nr pr).cache nodeName
                  (podFlavour s.labelName pod))
          then (100 : Int) else 0, successStatus ""),
          updateCacheIfNeeded s now nr pr)) ∧
      (Score stateABC podGold "A" 0 nr pr).1.1 = 100 ∧
      (Score stateABC podGold "B" 0 nr pr).1.1 = 0 ∧
      (Score stateABC podGold "C" 0 nr pr).1.1 = 100 := by
  have habc : ∀ n : String,
      (Score stateABC podGold n 0 nr pr).1.1 = scoreOn tblABC "gold" n := by
    intro n
    rw [Score_eq stateABC podGold n 0 nr pr (by decide),
      updateCacheIfNeeded_ttl _ _ _ _ (by decide)]
    rfl
  refine ⟨?_, ?_, ?_, ?_⟩
  · rw [Score_eq _ _ _ _ _ _ h, scoreOn_eq_spec]
  · rw [habc]; decide
  · rw [habc]; decide
  · rw [habc]; decide

/-- C4 witness: the binary rule applied on the spec's concrete table. -/
theorem c4_binary_scoring_witness :
    (podFlavour stateABC.labelName podGold ≠ "") ∧
      ((Score stateABC podGold "A" 0 (.ok []) (.ok [])).1.1 = 100 ∧
        (Score stateABC podGold "B" 0 (.ok []) (.ok [])).1.1 = 0 ∧
        (Score stateABC podGold "C" 0 (.ok []) (.ok [])).1.1 = 100) :=
  ⟨by decide, (c4_binary_scoring stateABC podGold "A" 0 (.ok []) (.ok []) (by decide)).2⟩

/-- C9: when no row of the cache has an entry for the pod's (non-empty)
flavour — including the empty cache — and no refresh is due, Score returns
score 0 with a Success status: the -1 sentinel never equals the candidate's
defaulted count 0. -/
theorem c9_no_data_scores_zero (s : PluginState) (pod : PodInfo) (nodeName : String)
    (now : Int) (nr : Except Unit (List String)) (pr : Except Unit (List PodInfo))
    (hfl : podFlavour s.labelName pod ≠ "")
    (hnone : ∀ e ∈ s.cache, alistLookup e.2 (podFlavour s.labelName pod) = none)
    (httl : now - s.lastUpdated < 60) :
    Score s pod nodeName now nr pr = ((0, successStatus ""), s) := by
  rw [Score_eq _ _ _ _ _ _ hfl, updateCacheIfNeeded_ttl _ _ _ _ httl]
  have hmin : minPods s.cache (podFlavour s.labelName pod) = -1 :=
    minPodsLoop_skip _ _ _ hnone
  have hne : ¬((countOf s.cache nodeName (podFlavour s.labelName pod) : Int) = -1) := by
    omega
  simp [scoreOn, hmin, hne]

/-- C9 witness: the empty initial cache scores 0 for a gold pod on any node. -/
theorem c9_no_data_scores_zero_witness :
    (∀ e ∈ (initState "flavour").cache,
        alistLookup e.2 (podFlavour (initState "flavour").labelName podGold) = none) ∧
      Score (initState "flavour") podGold "A" 0 (.ok []) (.ok []) =
        ((0, successStatus ""), initState "flavour") :=
  ⟨by decide, c9_no_data_scores_zero _ _ _ _ _ _ (by decide) (by decide) (by decide)⟩

/-- C10: a candidate node with no row in the cache is evaluated with the Go
map default count 0, so (with no refresh due) it scores 100 exactly when the
minimum over the rows that do carry the flavour equals 0. -/
theorem c10_missing_row_default (s : PluginState) (pod : PodInfo) (nodeName : String)
    (now : Int) (nr : Except Unit (List String)) (pr : Except Unit (List PodInfo))
    (hfl : podFlavour s.labelName pod ≠ "")
    (hrow : alistLookup s.cache nodeName = none)
    (httl : now - s.lastUpdated < 60) :
    ((Score s pod nodeName now nr pr).1.1 = 100 ↔
      specMin s.cache (podFlavour s.labelName pod) = some 0) := by
  rw [Score_eq _ _ _ _ _ _ hfl, updateCacheIfNeeded_ttl _ _ _ _ httl]
  have hcount : countOf s.cache nodeName (podFlavour s.labelName pod) = 0 := by
    simp [countOf, hrow, alistLookup]
  show scoreOn s.cache (podFlavour s.labelName pod) nodeName = 100 ↔ _
  rw [scoreOn_eq_spec, hcount]
  constructor
  · intro h
    by_contra hne
    rw [if_neg hne] at h
    exact absurd h (by decide)
  · intro h
    rw [if_pos h]

/-- C10 witness: node B has no row in {A:{gold:0}}; the minimum over rows
carrying gold is 0, and B scores 100. -/
theorem c10_missing_row_default_witness :
    alistLookup stateAgold0.cache "B" = none ∧
      ((Score stateAgold0 podGold "B" 0 (.ok []) (.ok [])).1.1 = 100 ↔
        specMin stateAgold0.cache (podFlavour stateAgold0.labelName podGold) = some 0) :=
  ⟨by decide,
    c10_missing_row_default stateAgold0 podGold "B" 0 _ _ (by decide) (by decide) (by decide)⟩

/-! Lemmas about ensureRow, ensureFlavour, backfill and bumpFlavour, used for
the PostBind claims. -/

theorem alistLookup_ensureRow_self (c : Cache) (n : String) :
    alistLookup (ensureRow c n) n = some ((alistLookup c n).getD []) := by
  simp only [ensureRow]
  cases h : alistLookup c n with
  | none => simp [alistLookup_alistSet_self]
  | some r => simpa using h

theorem alistLookup_ensureRow_ne (c : Cache) {n n' : String} (h : n' ≠ n) :
    alistLookup (ensureRow c n) n' = alistLookup c n' := by
  simp only [ensureRow]
  split
  · rfl
  · exact alistLookup_alistSet_ne _ _ h

theorem alistLookup_backfill (c : Cache) (fl n : String) :
    alistLookup (backfill c fl) n =
      (alistLookup c n).map
        (fun r => if (alistLookup r fl).isSome then r else alistSet r fl 0) := by
  induction c with
  | nil => rfl
  | cons e rest ih =>
    obtain ⟨k₀, r₀⟩ := e
    by_cases hr : (alistLookup r₀ fl).isSome
    · have hhead : backfill ((k₀, r₀) :: rest) fl = (k₀, r₀) :: backfill rest fl := by
        simp [backfill, hr]
      rw [hhead]
      by_cases h : k₀ = n
      · subst h
        simp [alistLookup, hr]
      · simp only [alistLookup, if_neg h]
        exact ih
    · have hhead : backfill ((k₀, r₀) :: rest) fl =
          (k₀, alistSet r₀ fl 0) :: backfill rest fl := by
        simp [backfill, hr]
      rw [hhead]
      by_cases h : k₀ = n
      · subst h
        simp [alistLookup, hr]
      · simp only [alistLookup, if_neg h]
        exact ih

theorem rowAt_ensureFlavour (c : Cache) (n fl : String) :
    (alistLookup (ensureFlavour c n fl) n).getD [] =
      (if (alistLookup ((alistLookup c n).getD []) fl).isSome
       then (alistLookup c n).getD []
       else alistSet ((alistLookup c n).getD []) fl 0) := by
  by_cases h : (alistLookup ((alistLookup c n).getD []) fl).isSome
  · simp only [ensureFlavour]
    rw [if_pos h, if_pos h]
  · simp only [ensureFlavour]
    rw [if_neg h, if_neg h, alistLookup_backfill, alistLookup_alistSet_self]
    simp [alistLookup_alistSet_self]

/-- The count the PostBind increment reads is the original count. -/
theorem countAt_ensureFlavour (c : Cache) (n fl : String) :
    (alistLookup ((alistLookup (ensureFlavour c n fl) n).getD []) fl).getD 0 =
      (alistLookup ((alistLookup c n).getD []) fl).getD 0 := by
  rw [rowAt_ensureFlavour]
  by_cases h : (alistLookup ((alistLookup c n).getD []) fl).isSome
  · rw [if_pos h]
  · rw [if_neg h, alistLookup_alistSet_self]
    cases hx : alistLookup ((alistLookup c n).getD []) fl with
    | none => rfl
    | some v => rw [hx] at h; exact absurd rfl h

/-- After PostBind of a labelled pod, the bound node's row has an entry for
the recorded flavour holding exactly the old (defaulted) count plus one. -/
theorem postBind_count (s : PluginState) (pod : PodInfo) (nodeName : String)
    (h : podFlavour s.labelName pod ≠ "") :
    alistLookup ((alistLookup (PostBind s pod nodeName).cache nodeName).getD [])
        (podFlavour s.labelName pod) =
      some (countOf s.cache nodeName (podFlavour s.labelName pod) + 1) := by
  simp only [PostBind, if_neg h, bumpFlavour, alistLookup_alistSet_self, Option.getD_some]
  rw [countAt_ensureFlavour, alistLookup_ensureRow_self]
  simp [countOf]

/-- C8: Score always returns a Success status and a score that is 0 or 100,
for every state, pod, node and inventory result — including unknown nodes and
flavours and the empty cache; and PostBind on a labelled pod always succeeds,
creating the bound node's row and flavour entry on demand and incrementing it
to old count + 1. -/
theorem c8_totality (s : PluginState) (pod : PodInfo) (nodeName : String) (now : Int)
    (nr : Except Unit (List String)) (pr : Except Unit (List PodInfo)) :
    ((Score s pod nodeName now nr pr).1.2.code = StatusCode.success ∧
        ((Score s pod nodeName now nr pr).1.1 = 0 ∨
          (Score s pod nodeName now nr pr).1.1 = 100)) ∧
      (podFlavour s.labelName pod ≠ "" →
        alistLookup ((alistLookup (PostBind s pod nodeName).cache nodeName).getD [])
            (podFlavour s.labelName pod) =
          some (countOf s.cache nodeName (podFlavour s.labelName pod) + 1)) := by
  constructor
  · by_cases h : podFlavour s.labelName pod = ""
    · simp [Score, h, successStatus]
    · rw [Score_eq _ _ _ _ _ _ h]
      refine ⟨rfl, ?_⟩
      simp only [scoreOn]
      split
      · right; rfl
      · left; rfl
  · exact fun hfl => postBind_count s pod nodeName hfl

/-- C8 witness: Score and PostBind on a node Z absent from the empty initial
cache. -/
theorem c8_totality_witness :
    ((Score (initState "flavour") podGold "Z" 0 (.ok []) (.ok [])).1.2.code
          = StatusCode.success ∧
        ((Score (initState "flavour") podGold "Z" 0 (.ok []) (.ok [])).1.1 = 0 ∨
          (Score (initState "flavour") podGold "Z" 0 (.ok []) (.ok [])).1.1 = 100)) ∧
      alistLookup
          ((alistLookup (PostBind (initState "flavour") podGold "Z").cache "Z").getD [])
          (podFlavour (initState "flavour").labelName podGold) =
        some (countOf (initState "flavour").cache "Z"
            (podFlavour (initState "flavour").labelName podGold) + 1) :=
  ⟨(c8_totality (initState "flavour") podGold "Z" 0 (.ok []) (.ok [])).1,
    (c8_totality (initState "flavour") podGold "Z" 0 (.ok []) (.ok [])).2 (by decide)⟩

/-! Uniformity infrastructure for C1. -/

theorem mem_flavoursOf {c : Cache} {fl : String} :
    fl ∈ flavoursOf c ↔ ∃ e ∈ c, ∃ p ∈ e.2, p.1 = fl := by
  induction c with
  | nil => simp [flavoursOf]
  | cons e rest ih =>
    simp only [flavoursOf, List.mem_append, List.mem_map, List.mem_cons, ih]
    constructor
    · rintro (⟨p, hp, hfst⟩ | ⟨e', he', p, hp, hfst⟩)
      · exact ⟨e, Or.inl rfl, p, hp, hfst⟩
      · exact ⟨e', Or.inr he', p, hp, hfst⟩
    · rintro ⟨e', he' | he', p, hp, hfst⟩
      · subst he'
        exact Or.inl ⟨p, hp, hfst⟩
      · exact Or.inr ⟨e', he', p, hp, hfst⟩

theorem uniform_iff {c : Cache} :
    uniform c = true ↔
      ∀ fl ∈ flavoursOf c, ∀ e ∈ c, (alistLookup e.2 fl).isSome = true := by
  simp [uniform, List.all_eq_true]

theorem uniform_of_bound (c : Cache) (flavs : List String) (h : CacheBound flavs c) :
    uniform c = true := by
  rw [uniform_iff]
  intro fl hfl e he
  rcases mem_flavoursOf.mp hfl with ⟨e', he', p, hp, hfst⟩
  exact (h e he).1 fl (hfst ▸ (h e' he').2 p hp)

theorem cacheBound_flavoursOf {c : Cache} (hu : uniform c = true) :
    CacheBound (flavoursOf c) c := by
  intro e he
  constructor
  · intro fl hfl
    exact uniform_iff.mp hu fl hfl e he
  · intro p hp
    exact mem_flavoursOf.mpr ⟨e, he, p, hp, rfl⟩

theorem rowKeys_alistSet {flavs : List String} {row : Row} {fl : String} (v : Nat)
    (h : RowKeys flavs row) (hfl : fl ∈ flavs) : RowKeys flavs (alistSet row fl v) := by
  constructor
  · intro fl' hfl'
    rw [alistLookup_alistSet]
    by_cases hh : fl' = fl
    · simp [hh]
    · rw [if_neg hh]
      exact h.1 fl' hfl'
  · intro p hp
    rcases mem_alistSet hp with h' | h'
    · rw [h']
      exact hfl
    · exact h.2 p h'

theorem cacheBound_alistSet {flavs : List String} {c : Cache} {n : String} {row : Row}
    (hc : CacheBound flavs c) (hr : RowKeys flavs row) :
    CacheBound flavs (alistSet c n row) := by
  intro e he
  rcases mem_alistSet he with h' | h'
  · rw [h']
    exact hr
  · exact hc e h'

theorem cacheBound_bumpFlavour {flavs : List String} {c : Cache} {n fl : String}
    (hc : CacheBound flavs c) (hfl : fl ∈ flavs)
    (hn : (alistLookup c n).isSome = true) :
    CacheBound flavs (bumpFlavour c n fl) := by
  rcases Option.isSome_iff_exists.mp hn with ⟨row₀, hrow⟩
  have hrk : RowKeys flavs row₀ := hc (n, row₀) (alistLookup_mem hrow)
  simp only [bumpFlavour, hrow, Option.getD_some]
  exact cacheBound_alistSet hc (rowKeys_alistSet _ hrk hfl)

theorem nodesPresent_alistSet {nodes : List String} {c : Cache} (n : String) (row : Row)
    (h : NodesPresent nodes c) : NodesPresent nodes (alistSet c n row) :=
  fun n' hn' => alistLookup_isSome_alistSet _ _ _ _ (h n' hn')

theorem alistLookup_zeroRow (flavs : List String) (fl : String) :
    alistLookup (zeroRow flavs) fl = if fl ∈ flavs then some 0 else none := by
  induction flavs with
  | nil => simp [zeroRow, alistLookup]
  | cons f rest ih =>
    simp only [zeroRow, List.map_cons, alistLookup]
    by_cases h : f = fl
    · subst h
      simp
    · simp [h, Ne.symm h]
      exact ih

theorem rowKeys_zeroRow (flavs : List String) : RowKeys flavs (zeroRow flavs) := by
  constructor
  · intro fl hfl
    rw [alistLookup_zeroRow, if_pos hfl]
    rfl
  · intro p hp
    rcases List.mem_map.mp hp with ⟨fl, hfl, hp'⟩
    rw [← hp']
    exact hfl

theorem initCache_bound (nodes : List String) (flavs : List String) :
    CacheBound flavs (initCache nodes flavs) := by
  have key : ∀ (ns : List String) (c : Cache), CacheBound flavs c →
      CacheBound flavs (ns.foldl (fun c n => alistSet c n (zeroRow flavs)) c) := by
    intro ns
    induction ns with
    | nil => exact fun c hc => hc
    | cons n rest ih =>
      intro c hc
      exact ih _ (cacheBound_alistSet hc (rowKeys_zeroRow flavs))
  exact key nodes [] (fun e he => absurd he (List.not_mem_nil e))

theorem initCache_present (nodes : List String) (flavs : List String) :
    NodesPresent nodes (initCache nodes flavs) := by
  have key : ∀ (ns : List String) (c : Cache) (n : String),
      n ∈ ns ∨ (alistLookup c n).isSome = true →
      (alistLookup (ns.foldl (fun c n => alistSet c n (zeroRow flavs)) c) n).isSome = true := by
    intro ns
    induction ns with
    | nil =>
      intro c n h
      rcases h with h | h
      · exact absurd h (List.not_mem_nil n)
      · exact h
    | cons m rest ih =>
      intro c n h
      apply ih
      rcases h with h | h
      · rcases List.mem_cons.mp h with h' | h'
        · subst h'
          right
          rw [alistLookup_alistSet_self]
          rfl
        · exact Or.inl h'
      · exact Or.inr (alistLookup_isSome_alistSet _ _ _ _ h)
  exact fun n hn => key nodes [] n (Or.inl hn)

/-! Flavour discovery and the rebuild preserve the key bound. -/

theorem discover_sub (labelName : String) (pods : List PodInfo) (acc : List String)
    {fl : String} (h : fl ∈ acc) : fl ∈ pods.foldl (discoverStep labelName) acc := by
  induction pods generalizing acc with
  | nil => exact h
  | cons p rest ih =>
    apply ih
    simp only [discoverStep]
    split
    · exact h
    · split
      · exact h
      · split
        · exact h
        · exact List.mem_append_left _ h

theorem discover_mem (labelName : String) (pods : List PodInfo) (acc : List String)
    {p : PodInfo} (hp : p ∈ pods) (hn : p.nodeName ≠ "") (hf : podFlavour labelName p ≠ "") :
    podFlavour labelName p ∈ pods.foldl (discoverStep labelName) acc := by
  induction pods generalizing acc with
  | nil => exact absurd hp (List.not_mem_nil p)
  | cons q rest ih =>
    rcases List.mem_cons.mp hp with h | h
    · subst h
      simp only [List.foldl_cons]
      apply discover_sub
      simp only [discoverStep, if_neg hn, if_neg hf]
      split
      · assumption
      · exact List.mem_append_right _ (List.mem_singleton.mpr rfl)
    · simp only [List.foldl_cons]
      exact ih _ h

theorem countStep_preserves {labelName : String} {flavs nodes : List String} {c : Cache}
    {p : PodInfo}
    (hc : CacheBound flavs c) (hnp : NodesPresent nodes c)
    (hcond : p.nodeName = "" ∨ podFlavour labelName p = "" ∨ p.nodeName ∈ nodes)
    (hfl : p.nodeName ≠ "" → podFlavour labelName p ≠ "" → podFlavour labelName p ∈ flavs) :
    CacheBound flavs (countStep labelName c p) ∧
      NodesPresent nodes (countStep labelName c p) := by
  by_cases h1 : p.nodeName = ""
  · simp only [countStep, if_pos h1]
    exact ⟨hc, hnp⟩
  by_cases h2 : podFlavour labelName p = ""
  · simp only [countStep, if_neg h1, if_pos h2]
    exact ⟨hc, hnp⟩
  have hmem : p.nodeName ∈ nodes := by tauto
  have hflav : podFlavour labelName p ∈ flavs := hfl h1 h2
  have hsome : (alistLookup c p.nodeName).isSome = true := hnp _ hmem
  have hrowEq : ensureRow c p.nodeName = c := by
    simp [ensureRow, hsome]
  rcases Option.isSome_iff_exists.mp hsome with ⟨row₀, hrow⟩
  have hrk : RowKeys flavs row₀ := hc (p.nodeName, row₀) (alistLookup_mem hrow)
  have hentry :
      (alistLookup ((alistLookup c p.nodeName).getD []) (podFlavour labelName p)).isSome
        = true := by
    rw [hrow]
    exact hrk.1 _ hflav
  have hentryEq : ensureEntry c p.nodeName (podFlavour labelName p) = c := by
    simp [ensureEntry, hentry]
  simp only [countStep, if_neg h1, if_neg h2, hrowEq, hentryEq]
  refine ⟨cacheBound_bumpFlavour hc hflav hsome, ?_⟩
  simp only [bumpFlavour]
  exact nodesPresent_alistSet _ _ hnp

theorem secondPass_bound {labelName : String} {flavs nodes : List String}
    (pods : List PodInfo) (c : Cache)
    (hc : CacheBound flavs c) (hnp : NodesPresent nodes c)
    (hall : ∀ p ∈ pods, p.nodeName = "" ∨ podFlavour labelName p = "" ∨ p.nodeName ∈ nodes)
    (hfl : ∀ p ∈ pods, p.nodeName ≠ "" → podFlavour labelName p ≠ "" →
        podFlavour labelName p ∈ flavs) :
    CacheBound flavs (pods.foldl (countStep labelName) c) := by
  induction pods generalizing c with
  | nil => exact hc
  | cons p rest ih =>
    have hstep := countStep_preserves hc hnp (hall p (List.mem_cons_self _ _))
      (hfl p (List.mem_cons_self _ _))
    simp only [List.foldl_cons]
    exact ih _ hstep.1 hstep.2 (fun q hq => hall q (List.mem_cons_of_mem _ hq))
      (fun q hq => hfl q (List.mem_cons_of_mem _ hq))

theorem rebuild_uniform (labelName : String) (nodes : List String) (pods : List PodInfo)
    (hall : podsOnListedNodes labelName nodes pods) :
    uniform (rebuildCache labelName nodes pods) = true := by
  apply uniform_of_bound _ (discoverFlavours labelName pods)
  apply secondPass_bound pods _ (initCache_bound nodes _) (initCache_present nodes _) hall
  intro p hp hn hf
  exact discover_mem labelName pods [] hp hn hf

theorem backfill_bound {c : Cache} {fl : String} {flavs : List String}
    (h : ∀ e ∈ c, (∀ fl' ∈ flavs, (alistLookup e.2 fl').isSome = true) ∧
        ∀ p ∈ e.2, p.1 ∈ fl :: flavs) :
    CacheBound (fl :: flavs) (backfill c fl) := by
  intro e' he'
  rcases List.mem_map.mp he' with ⟨e, he, heq⟩
  have hre : e'.2 = if (alistLookup e.2 fl).isSome then e.2 else alistSet e.2 fl 0 := by
    by_cases hfl : (alistLookup e.2 fl).isSome
    · rw [← heq]
      simp [hfl]
    · rw [← heq]
      simp [hfl]
  rw [RowKeys, hre]
  by_cases hfl : (alistLookup e.2 fl).isSome
  · rw [if_pos hfl]
    constructor
    · intro fl' hfl'
      rcases List.mem_cons.mp hfl' with h' | h'
      · subst h'
        exact hfl
      · exact (h e he).1 fl' h'
    · exact (h e he).2
  · rw [if_neg hfl]
    constructor
    · intro fl' hfl'
      rw [alistLookup_alistSet]
      by_cases hh : fl' = fl
      · simp [hh]
      · rw [if_neg hh]
        rcases List.mem_cons.mp hfl' with h' | h'
        · exact absurd h' hh
        · exact (h e he).1 fl' h'
    · intro p hp
      rcases mem_alistSet hp with h' | h'
      · rw [h']
        exact List.mem_cons_self _ _
      · exact (h e he).2 p h'

/-- The cache transformation PostBind performs on a labelled pod preserves
uniformity when the bound node already has a row or when the recorded flavour
is the only one present. -/
theorem postBindCache_uniform (c : Cache) (nodeName fl : String)
    (hu : uniform c = true)
    (hsafe : (alistLookup c nodeName).isSome = true ∨ ∀ fl' ∈ flavoursOf c, fl' = fl) :
    uniform (bumpFlavour (ensureFlavour (ensureRow c nodeName) nodeName fl) nodeName fl)
      = true := by
  have hbound : CacheBound (flavoursOf c) c := cacheBound_flavoursOf hu
  cases hnode : alistLookup c nodeName with
  | some row₀ =>
    have hrow : ensureRow c nodeName = c := by
      simp [ensureRow, hnode]
    rw [hrow]
    have hrk : RowKeys (flavoursOf c) row₀ := hbound _ (alistLookup_mem hnode)
    by_cases hhas : (alistLookup row₀ fl).isSome
    · have hef : ensureFlavour c nodeName fl = c := by
        simp [ensureFlavour, hnode, hhas]
      rw [hef]
      have hflmem : fl ∈ flavoursOf c := by
        rcases Option.isSome_iff_exists.mp hhas with ⟨v, hv⟩
        exact mem_flavoursOf.mpr ⟨(nodeName, row₀), alistLookup_mem hnode, (fl, v),
          alistLookup_mem hv, rfl⟩
      exact uniform_of_bound _ _
        (cacheBound_bumpFlavour hbound hflmem (by rw [hnode]; rfl))
    · have hef : ensureFlavour c nodeName fl =
          backfill (alistSet c nodeName (alistSet row₀ fl 0)) fl := by
        simp [ensureFlavour, hnode, hhas]
      rw [hef]
      have hbf : CacheBound (fl :: flavoursOf c)
          (backfill (alistSet c nodeName (alistSet row₀ fl 0)) fl) := by
        apply backfill_bound
        intro e he
        rcases mem_alistSet he with h' | h'
        · subst h'
          constructor
          · intro fl' hfl'
            show (alistLookup (alistSet row₀ fl 0) fl').isSome = true
            rw [alistLookup_alistSet]
            by_cases hh : fl' = fl
            · simp [hh]
            · rw [if_neg hh]
              exact hrk.1 fl' hfl'
          · intro p hp
            rcases mem_alistSet hp with h'' | h''
            · rw [h'']
              exact List.mem_cons_self _ _
            · exact List.mem_cons_of_mem _ (hrk.2 p h'')
        · exact ⟨(hbound e h').1,
            fun p hp => List.mem_cons_of_mem _ ((hbound e h').2 p hp)⟩
      apply uniform_of_bound _ (fl :: flavoursOf c)
      apply cacheBound_bumpFlavour hbf (List.mem_cons_self _ _)
      rw [alistLookup_backfill, alistLookup_alistSet_self]
      rfl
  | none =>
    have hrow : ensureRow c nodeName = alistSet c nodeName [] := by
      simp [ensureRow, hnode]
    rw [hrow]
    have hl1 : alistLookup (alistSet c nodeName []) nodeName = some [] :=
      alistLookup_alistSet_self _ _ _
    have hef : ensureFlavour (alistSet c nodeName []) nodeName fl =
        backfill (alistSet (alistSet c nodeName []) nodeName (alistSet [] fl 0)) fl := by
      simp [ensureFlavour, hl1, alistLookup]
    have hall : ∀ fl' ∈ flavoursOf c, fl' = fl := by
      rcases hsafe with h | h
      · rw [hnode] at h
        simp at h
      · exact h
    rw [hef]
    have hbf : CacheBound (fl :: ([] : List String))
        (backfill (alistSet (alistSet c nodeName []) nodeName (alistSet [] fl 0)) fl) := by
      apply backfill_bound
      intro e he
      rcases mem_alistSet he with h' | h'
      · subst h'
        constructor
        · intro fl' hfl'
          exact absurd hfl' (List.not_mem_nil fl')
        · intro p hp
          rcases mem_alistSet hp with h'' | h''
          · rw [h'']
            exact List.mem_cons_self _ _
          · exact absurd h'' (List.not_mem_nil p)
      · rcases mem_alistSet h' with h'' | h''
        · subst h''
          constructor
          · intro fl' hfl'
            exact absurd hfl' (List.not_mem_nil fl')
          · intro p hp
            exact absurd hp (List.not_mem_nil p)
        · constructor
          · intro fl' hfl'
            exact absurd hfl' (List.not_mem_nil fl')
          · intro p hp
            have hpm : p.1 ∈ flavoursOf c := mem_flavoursOf.mpr ⟨e, h'', p, hp, rfl⟩
            rw [hall _ hpm]
            exact List.mem_cons_self _ _
    have hsome : (alistLookup (backfill (alistSet (alistSet c nodeName []) nodeName
        (alistSet [] fl 0)) fl) nodeName).isSome = true := by
      rw [alistLookup_backfill, alistLookup_alistSet_self]
      rfl
    exact uniform_of_bound _ _ (cacheBound_bumpFlavour hbf (List.mem_cons_self _ _) hsome)

theorem postBind_uniform {s : PluginState} {pod : PodInfo} {nodeName : String}
    (hu : uniform s.cache = true) (hs : recordSafe s pod nodeName) :
    uniform (PostBind s pod nodeName).cache = true := by
  by_cases hfl : podFlavour s.labelName pod = ""
  · simpa [PostBind, hfl] using hu
  · have hpc := postBindCache_uniform s.cache nodeName (podFlavour s.labelName pod) hu hs
    simpa [PostBind, hfl] using hpc

/-- C1 counterexample: from the initial empty cache, two PostBind steps —
gold on node A, then silver on node B — reach a state whose cache is
{A:{gold:1, silver:0}, B:{silver:1}}: row B has no entry for the flavour
gold present in the cache, so the uniformity invariant fails in a reachable
state. -/
theorem c1_uniformity_counterexample :
    Reachable (PostBind (PostBind (initState "flavour") podGold "A") podSilver "B") ∧
      uniform (PostBind (PostBind (initState "flavour") podGold "A") podSilver "B").cache
        = false :=
  ⟨Reachable.record podSilver "B" (Reachable.record podGold "A" (Reachable.init "flavour")),
    by decide⟩

/-- C1 (amended): uniformity — every node row has an entry for every flavour
present anywhere in the cache — holds in every state reachable from the
initial empty cache by successful rebuilds whose counted pods all land on
listed nodes, and by PostBind calls whose target node already has a row (or
made while the recorded flavour is the only one in the table). Unrestricted
steps can break it: a PostBind that creates a new node row gives that row an
entry only for the recorded flavour, and a rebuild gives a row created for an
unlisted node only its own pods' flavours. -/
theorem c1_uniform_restricted (s : PluginState) (h : GoodReachable s) :
    uniform s.cache = true := by
  induction h with
  | init label => rfl
  | refresh now nodes pods hpods hr ih =>
    simp only [updateCacheIfNeeded]
    split
    · exact ih
    · exact rebuild_uniform _ _ _ hpods
  | record pod nodeName hsafe hr ih => exact postBind_uniform ih hsafe

/-- C1 witness: the restricted reachability and the invariant at the concrete
state reached by recording gold and then silver on the same node A. -/
theorem c1_uniform_restricted_witness :
    GoodReachable (PostBind (PostBind (initState "flavour") podGold "A") podSilver "A") ∧
      uniform (PostBind (PostBind (initState "flavour") podGold "A") podSilver "A").cache
        = true := by
  have h1 : GoodReachable (initState "flavour") := GoodReachable.init "flavour"
  have hs1 : recordSafe (initState "flavour") podGold "A" := Or.inr (by decide)
  have h2 := GoodReachable.record podGold "A" hs1 h1
  have hs2 : recordSafe (PostBind (initState "flavour") podGold "A") podSilver "A" :=
    Or.inl (by decide)
  have h3 := GoodReachable.record podSilver "A" hs2 h2
  exact ⟨h3, c1_uniform_restricted _ h3⟩
